import Mathlib

/-!
Verification of the Black-Scholes option evaluation scripts
(calculo_opciones_BS_META.py and calculo_opciones_BS_UNH.py).

The discrete quote-selection, volatility-sanitization and rate-curve logic is
embedded over ℚ (Python floats carrying finite decimal data, with NaN and a
missing key modelled explicitly).  The Black-Scholes-Merton closed-form
formula is embedded over ℝ with the standard normal cumulative distribution
function defined as a Gaussian integral.
-/

set_option maxHeartbeats 1000000

open MeasureTheory Set

/-- Option contracts are calls or puts (`option_type == 'call'` versus the
else branch in the Python sources). -/
inductive OptionType where
  | call
  | put
deriving DecidableEq

/-- One field of a pandas option row: the key can be missing (`.get` returns
None), present but NaN, or hold a numeric value. -/
inductive QuoteField where
  | absent
  | nan
  | val (x : ℚ)
deriving DecidableEq

/-- `pd.isna`: true on a missing value (None) and on NaN. -/
def QuoteField.isna : QuoteField → Bool
  | .absent => true
  | .nan => true
  | .val _ => false

/-- The fields of an option-chain row consulted by `calculate_effective_price`.
`underlying_price` and `strike` are numeric columns (absent keys fall back to
the defaults in the source). -/
structure OptionRow where
  lastPrice : QuoteField
  bid : QuoteField
  ask : QuoteField
  underlying_price : Option ℚ
  strike : Option ℚ
  option_type : OptionType

/-- `validate_implied_volatility` from both scripts, parameterized by the
per-instrument default (returned on NaN or non-positive input) and ceiling
(returned on input above 5).  META uses 0.35 / 0.60, UNH uses 0.30 / 0.50. -/
def validate_implied_volatility {α : Type} [LinearOrderedField α]
    (defaultVol ceiling : α) (iv : Option α) : α :=
  match iv with
  | none => defaultVol
  | some x => if x ≤ 0 then defaultVol else if 5 < x then ceiling else x

/-- META instantiation of `validate_implied_volatility` over ℚ. -/
def metaValidateIV : Option ℚ → ℚ := validate_implied_volatility (35/100) (60/100)

/-- UNH instantiation of `validate_implied_volatility` over ℚ. -/
def unhValidateIV : Option ℚ → ℚ := validate_implied_volatility (30/100) (50/100)

/-- Priority-1 guard of `calculate_effective_price`: `lastPrice` is not NaN,
positive, and at most `option_row.get('ask', lastPrice * 2)`; a comparison
against a present-but-NaN ask is false in Python. -/
def validLast (row : OptionRow) : Bool :=
  match row.lastPrice with
  | .val l =>
      decide (0 < l) &&
      (match row.ask with
       | .absent => decide (l ≤ l * 2)
       | .nan => false
       | .val a => decide (l ≤ a))
  | _ => false

/-- The value returned by the priority-1 branch (the row's `lastPrice`). -/
def lastPriceValue (row : OptionRow) : ℚ :=
  match row.lastPrice with
  | .val l => l
  | _ => 0

/-- Final fallback of `calculate_effective_price`: intrinsic value floored at
one cent, with default spot 500 and default strike equal to the spot. -/
def intrinsic_fallback (row : OptionRow) : ℚ :=
  let S := row.underlying_price.getD 500
  let K := row.strike.getD S
  let intrinsic :=
    match row.option_type with
    | .call => max (S - K) 0
    | .put => max (K - S) 0
  max intrinsic (1/100)

/-- Priority 4 of `calculate_effective_price`: use a positive ask. -/
def priority4 (row : OptionRow) : ℚ :=
  match row.ask with
  | .val a => if 0 < a then a else intrinsic_fallback row
  | _ => intrinsic_fallback row

/-- Priority 3 of `calculate_effective_price`: use a positive bid. -/
def priority3 (row : OptionRow) : ℚ :=
  match row.bid with
  | .val b => if 0 < b then b else priority4 row
  | _ => priority4 row

/-- Priority 2 of `calculate_effective_price`: bid-ask midpoint with the
sanity check of the source. -/
def priority2 (row : OptionRow) : ℚ :=
  match row.bid, row.ask with
  | .val b, .val a =>
      if 0 < b ∧ 0 < a ∧ b ≤ a then
        if 0 < (b + a) / 2 ∧ (b + a) / 2 ≤ a then (b + a) / 2 else priority3 row
      else priority3 row
  | _, _ => priority3 row

/-- `calculate_effective_price` from calculo_opciones_BS_META.py. -/
def calculate_effective_price (row : OptionRow) : ℚ :=
  if validLast row then lastPriceValue row else priority2 row

/-- The percent-difference expression of the per-contract evaluation loop:
`(diff / effective_price) * 100 if effective_price > 0 else 0`. -/
def percent_diff (bs_price effective_price : ℚ) : ℚ :=
  if 0 < effective_price then (bs_price - effective_price) / effective_price * 100 else 0

/-- The three treasury tenors used by `get_risk_free_rate_maturity`
(short = 13-week bill, medium = 5-year note, long = 10-year note). -/
inductive Tenor where
  | short
  | medium
  | long
deriving DecidableEq

/-- The `treasury_tickers` dict in insertion order. -/
def treasury_tickers : List ((ℕ × ℕ) × Tenor) :=
  [((0, 30), .short), ((31, 90), .short), ((91, 180), .medium),
   ((181, 365), .medium), ((366, 730), .long), ((731, 9999), .long)]

/-- The selection loop of `get_risk_free_rate_maturity`: first tier containing
the maturity wins, otherwise the default short ticker. -/
def find_ticker (d : ℕ) : List ((ℕ × ℕ) × Tenor) → Tenor
  | [] => .short
  | ((lo, hi), t) :: rest => if lo ≤ d ∧ d ≤ hi then t else find_ticker d rest

/-- Ticker selection of `get_risk_free_rate_maturity`. -/
def select_treasury_ticker (d : ℕ) : Tenor := find_ticker d treasury_tickers

/-- Outcome of the external yield retrieval: a latest close (quoted in
percent), an empty history, or a raised exception. -/
inductive FetchResult where
  | ok (percent : ℚ)
  | empty
  | failure

/-- The static fallback curve of `get_risk_free_rate_maturity`. -/
def fallback_rate (d : ℕ) : ℚ :=
  if d ≤ 30 then 45/1000
  else if d ≤ 90 then 47/1000
  else if d ≤ 180 then 48/1000
  else if d ≤ 365 then 49/1000
  else 50/1000

/-- `get_risk_free_rate_maturity`, with the external retrieval abstracted as
an oracle from tenor to outcome: a successful quote is divided by 100, an
empty history or an exception degrades to the fallback curve. -/
def get_risk_free_rate_maturity (fetch : Tenor → FetchResult) (d : ℕ) : ℚ :=
  match fetch (select_treasury_ticker d) with
  | .ok p => p / 100
  | .empty => fallback_rate d
  | .failure => fallback_rate d

/-- The Gaussian kernel `exp(-t²/2)`. -/
noncomputable def stdGauss (t : ℝ) : ℝ := Real.exp (-(t ^ 2) / 2)

/-- The standard normal cumulative distribution function (scipy's
`norm.cdf`), as a Gaussian integral. -/
noncomputable def normCdf (x : ℝ) : ℝ :=
  (∫ t in Set.Iic x, stdGauss t) / Real.sqrt (2 * Real.pi)

/-- The standard normal density. -/
noncomputable def normPdf (x : ℝ) : ℝ := stdGauss x / Real.sqrt (2 * Real.pi)

/-- `d1` of `black_scholes_with_dividends`. -/
noncomputable def d1 (S K T r sigma q : ℝ) : ℝ :=
  (Real.log (S / K) + (r - q + 0.5 * sigma ^ 2) * T) / (sigma * Real.sqrt T)

/-- `d2` of `black_scholes_with_dividends`. -/
noncomputable def d2 (S K T r sigma q : ℝ) : ℝ :=
  d1 S K T r sigma q - sigma * Real.sqrt T

/-- The intrinsic-value branch of `black_scholes_with_dividends`
(`max(S-K, 0)` for a call, `max(K-S, 0)` for a put). -/
noncomputable def intrinsic_value (S K : ℝ) : OptionType → ℝ
  | .call => max (S - K) 0
  | .put => max (K - S) 0

/-- The closed-form branch of `black_scholes_with_dividends` (entered when
`T > 0`), taking the already re-sanitized volatility. -/
noncomputable def bs_formula (S K T r sigma q : ℝ) : OptionType → ℝ
  | .call => S * Real.exp (-q * T) * normCdf (d1 S K T r sigma q)
      - K * Real.exp (-r * T) * normCdf (d2 S K T r sigma q)
  | .put => K * Real.exp (-r * T) * normCdf (-(d2 S K T r sigma q))
      - S * Real.exp (-q * T) * normCdf (-(d1 S K T r sigma q))

/-- `black_scholes_with_dividends` from calculo_opciones_BS_META.py:
intrinsic value at or past expiry, otherwise the closed form with the
volatility re-sanitized by the META `validate_implied_volatility`
(default 0.35, ceiling 0.60).  The volatility argument is a float that may
be NaN, modelled as an `Option`. -/
noncomputable def black_scholes_with_dividends
    (S K T r : ℝ) (sigma : Option ℝ) (q : ℝ) (ty : OptionType) : ℝ :=
  if T ≤ 0 then intrinsic_value S K ty
  else bs_formula S K T r (validate_implied_volatility (35/100) (60/100) sigma) q ty

/-- `black_scholes_with_dividends` from calculo_opciones_BS_UNH.py
(default volatility 0.30, ceiling 0.50). -/
noncomputable def black_scholes_with_dividends_UNH
    (S K T r : ℝ) (sigma : Option ℝ) (q : ℝ) (ty : OptionType) : ℝ :=
  if T ≤ 0 then intrinsic_value S K ty
  else bs_formula S K T r (validate_implied_volatility (30/100) (50/100) sigma) q ty

/-! ### Theorems -/

theorem validate_iv_pos {α : Type} [LinearOrderedField α] {defaultVol ceiling : α}
    (hd : 0 < defaultVol) (hc : 0 < ceiling) (iv : Option α) :
    0 < validate_implied_volatility defaultVol ceiling iv := by
  rcases iv with _ | x
  · exact hd
  · show 0 < if x ≤ 0 then defaultVol else if 5 < x then ceiling else x
    split_ifs with h1 h2
    · exact hd
    · exact hc
    · exact lt_of_not_le h1

theorem validate_iv_le_five {α : Type} [LinearOrderedField α] {defaultVol ceiling : α}
    (hd : defaultVol ≤ 5) (hc : ceiling ≤ 5) (iv : Option α) :
    validate_implied_volatility defaultVol ceiling iv ≤ 5 := by
  rcases iv with _ | x
  · exact hd
  · show (if x ≤ 0 then defaultVol else if 5 < x then ceiling else x) ≤ 5
    split_ifs with h1 h2
    · exact hd
    · exact hc
    · exact le_of_not_lt h2

theorem validate_iv_idem {α : Type} [LinearOrderedField α] {defaultVol ceiling : α}
    (hd0 : 0 < defaultVol) (hd5 : defaultVol ≤ 5) (hc0 : 0 < ceiling) (hc5 : ceiling ≤ 5)
    (iv : Option α) :
    validate_implied_volatility defaultVol ceiling
        (some (validate_implied_volatility defaultVol ceiling iv)) =
      validate_implied_volatility defaultVol ceiling iv := by
  have hpos := validate_iv_pos hd0 hc0 iv
  have hle := validate_iv_le_five hd5 hc5 iv
  show (if validate_implied_volatility defaultVol ceiling iv ≤ 0 then defaultVol
        else if 5 < validate_implied_volatility defaultVol ceiling iv then ceiling
        else validate_implied_volatility defaultVol ceiling iv) =
      validate_implied_volatility defaultVol ceiling iv
  rw [if_neg (not_le.mpr hpos), if_neg (not_lt.mpr hle)]

/-- C3 counterexample: the input 3.0 (300%) is passed through unchanged by the
META sanitizer, so the result exceeds the 0.60 ceiling — the range claim
`(0, ceiling]` is false. -/
theorem c3_range_counterexample :
    metaValidateIV (some 3) = 3 ∧ ¬ metaValidateIV (some 3) ≤ 60/100 := by
  have h : metaValidateIV (some 3) = 3 := by
    show (if (3:ℚ) ≤ 0 then 35/100 else if 5 < (3:ℚ) then 60/100 else 3) = 3
    norm_num
  exact ⟨h, by rw [h]; norm_num⟩

/-- C3 (amended): both instantiations of `validate_implied_volatility` are
idempotent, and every result lies in `(0, 5]`; the per-instrument ceiling is
produced only for inputs above 5. -/
theorem c3_sanitizer_idempotent_and_bounded (iv : Option ℚ) :
    (metaValidateIV (some (metaValidateIV iv)) = metaValidateIV iv ∧
      0 < metaValidateIV iv ∧ metaValidateIV iv ≤ 5) ∧
    (unhValidateIV (some (unhValidateIV iv)) = unhValidateIV iv ∧
      0 < unhValidateIV iv ∧ unhValidateIV iv ≤ 5) := by
  refine ⟨⟨?_, ?_, ?_⟩, ⟨?_, ?_, ?_⟩⟩
  · exact validate_iv_idem (by norm_num) (by norm_num) (by norm_num) (by norm_num) iv
  · exact validate_iv_pos (by norm_num) (by norm_num) iv
  · exact validate_iv_le_five (by norm_num) (by norm_num) iv
  · exact validate_iv_idem (by norm_num) (by norm_num) (by norm_num) (by norm_num) iv
  · exact validate_iv_pos (by norm_num) (by norm_num) iv
  · exact validate_iv_le_five (by norm_num) (by norm_num) iv

/-- C4: at a zero effective price the source computes a percent difference of
0 (it does not report the figure as undefined); shown at the failing input
theoretical price 5, effective price 0. -/
theorem c4_zero_effective_price_yields_zero : percent_diff 5 0 = 0 := by
  decide

theorem intrinsic_fallback_pos (row : OptionRow) : 0 < intrinsic_fallback row :=
  lt_of_lt_of_le (by norm_num) (le_max_right _ _)

theorem priority4_pos (row : OptionRow) : 0 < priority4 row := by
  unfold priority4
  split
  · split_ifs with h
    · exact h
    · exact intrinsic_fallback_pos row
  · exact intrinsic_fallback_pos row

theorem priority3_pos (row : OptionRow) : 0 < priority3 row := by
  unfold priority3
  split
  · split_ifs with h
    · exact h
    · exact priority4_pos row
  · exact priority4_pos row

theorem priority2_pos (row : OptionRow) : 0 < priority2 row := by
  unfold priority2
  split
  · split_ifs with h1 h2
    · exact h2.1
    · exact priority3_pos row
    · exact priority3_pos row
  · exact priority3_pos row

theorem lastPriceValue_pos_of_validLast (row : OptionRow) (h : validLast row = true) :
    0 < lastPriceValue row := by
  unfold validLast at h
  unfold lastPriceValue
  rcases hl : row.lastPrice with _ | _ | l <;> rw [hl] at h
  · simp at h
  · simp at h
  · simp only [Bool.and_eq_true, decide_eq_true_eq] at h
    exact h.1

theorem priority2_no_quotes (row : OptionRow)
    (hb : ∀ b, row.bid = QuoteField.val b → b ≤ 0)
    (ha : ∀ a, row.ask = QuoteField.val a → a ≤ 0) :
    priority2 row = intrinsic_fallback row := by
  have h4 : priority4 row = intrinsic_fallback row := by
    unfold priority4
    rcases hask : row.ask with _ | _ | a
    · rfl
    · rfl
    · show (if 0 < a then a else intrinsic_fallback row) = intrinsic_fallback row
      rw [if_neg (not_lt.mpr (ha a hask))]
  have h3 : priority3 row = intrinsic_fallback row := by
    unfold priority3
    rcases hbid : row.bid with _ | _ | b
    · exact h4
    · exact h4
    · show (if 0 < b then b else priority4 row) = intrinsic_fallback row
      rw [if_neg (not_lt.mpr (hb b hbid)), h4]
  unfold priority2
  rcases hbid : row.bid with _ | _ | b <;> rcases hask : row.ask with _ | _ | a <;>
    try exact h3
  show (if 0 < b ∧ 0 < a ∧ b ≤ a then
          if 0 < (b + a) / 2 ∧ (b + a) / 2 ≤ a then (b + a) / 2 else priority3 row
        else priority3 row) = intrinsic_fallback row
  rw [if_neg, h3]
  rintro ⟨hb0, -, -⟩
  exact absurd (hb b hbid) (not_le.mpr hb0)

/-- C2: `calculate_effective_price` is strictly positive on every row; when
no quote field is usable it returns the one-cent-floored intrinsic value, and
on the scenario row (lastPrice 0, bid and ask absent, spot 100, strike 90,
put) it returns exactly 0.01. -/
theorem c2_effective_price_positive :
    (∀ row : OptionRow, 0 < calculate_effective_price row) ∧
    (∀ row : OptionRow, validLast row = false →
      (∀ b, row.bid = QuoteField.val b → b ≤ 0) →
      (∀ a, row.ask = QuoteField.val a → a ≤ 0) →
      calculate_effective_price row = intrinsic_fallback row) ∧
    calculate_effective_price
      ⟨QuoteField.val 0, QuoteField.absent, QuoteField.absent,
        some 100, some 90, OptionType.put⟩ = 1/100 := by
  refine ⟨?_, ?_, by
    norm_num [calculate_effective_price, validLast, priority2, priority3, priority4,
      intrinsic_fallback]⟩
  · intro row
    unfold calculate_effective_price
    split_ifs with h
    · exact lastPriceValue_pos_of_validLast row h
    · exact priority2_pos row
  · intro row hlast hb ha
    unfold calculate_effective_price
    rw [hlast]
    simp only [Bool.false_eq_true, if_false]
    exact priority2_no_quotes row hb ha

/-- C2 witness: a row with NaN last price, non-positive bid and absent ask
takes the intrinsic-fallback path. -/
theorem c2_effective_price_positive_witness :
    validLast ⟨QuoteField.nan, QuoteField.val (-1), QuoteField.absent,
        none, none, OptionType.call⟩ = false ∧
    calculate_effective_price
        ⟨QuoteField.nan, QuoteField.val (-1), QuoteField.absent,
          none, none, OptionType.call⟩ =
      intrinsic_fallback
        ⟨QuoteField.nan, QuoteField.val (-1), QuoteField.absent,
          none, none, OptionType.call⟩ := by
  refine ⟨rfl, c2_effective_price_positive.2.1 _ rfl ?_ ?_⟩
  · rintro b hb
    injection hb with h
    rw [← h]
    norm_num
  · rintro a ha
    cases ha

/-- C9: when the priority-1 guard fails and bid and ask are both present and
positive with ask at least bid, `calculate_effective_price` returns the
bid-ask midpoint. -/
theorem c9_midpoint (row : OptionRow) (b a : ℚ)
    (hlast : validLast row = false)
    (hbid : row.bid = QuoteField.val b) (hask : row.ask = QuoteField.val a)
    (hb0 : 0 < b) (ha0 : 0 < a) (hba : b ≤ a) :
    calculate_effective_price row = (b + a) / 2 := by
  unfold calculate_effective_price
  rw [hlast]
  simp only [Bool.false_eq_true, if_false]
  unfold priority2
  rw [hbid, hask]
  show (if 0 < b ∧ 0 < a ∧ b ≤ a then
          if 0 < (b + a) / 2 ∧ (b + a) / 2 ≤ a then (b + a) / 2 else priority3 row
        else priority3 row) = (b + a) / 2
  rw [if_pos ⟨hb0, ha0, hba⟩, if_pos ⟨by linarith, by linarith⟩]

/-- C9 witness: lastPrice absent, bid 2.00, ask 2.20 gives midpoint 2.10. -/
theorem c9_midpoint_witness :
    validLast ⟨QuoteField.absent, QuoteField.val 2, QuoteField.val (11/5),
        none, none, OptionType.call⟩ = false ∧
    calculate_effective_price
        ⟨QuoteField.absent, QuoteField.val 2, QuoteField.val (11/5),
          none, none, OptionType.call⟩ = 21/10 := by
  refine ⟨rfl, ?_⟩
  rw [c9_midpoint
    ⟨QuoteField.absent, QuoteField.val 2, QuoteField.val (11/5), none, none, OptionType.call⟩
    2 (11/5) rfl rfl rfl (by norm_num) (by norm_num) (by norm_num)]
  norm_num

/-- C5 counterexample: maturity 10000 days is contained in no tier of the
`treasury_tickers` dict (the last tier ends at 9999), so the loop's default
short-tenor ticker is selected rather than the long tenor. -/
theorem c5_counterexample :
    select_treasury_ticker 10000 = Tenor.short ∧
    select_treasury_ticker 10000 ≠ Tenor.long := by
  constructor <;> decide

/-- C5 (amended): the six tiers are `[0,30], [31,90], [91,180], [181,365],
[366,730], [731,9999]`; for maturities up to 9999 days exactly one tier
matches and the bound tenor is selected (short up to 90 days, medium up to
365, long up to 9999), while larger maturities match no tier and fall to the
default short tenor. -/
theorem c5_tier_selection (d : ℕ) :
    select_treasury_ticker d =
      (if d ≤ 90 then Tenor.short else if d ≤ 365 then Tenor.medium
       else if d ≤ 9999 then Tenor.long else Tenor.short) ∧
    (d ≤ 9999 → ∃! p : ℕ × ℕ,
      p ∈ treasury_tickers.map Prod.fst ∧ p.1 ≤ d ∧ d ≤ p.2) := by
  constructor
  · simp only [select_treasury_ticker, treasury_tickers, find_ticker]
    split_ifs <;> first | rfl | omega
  · intro hd
    simp only [treasury_tickers, List.map_cons, List.map_nil, List.mem_cons,
      List.not_mem_nil, or_false]
    rcases le_or_lt d 30 with h | h
    · refine ⟨(0, 30), ⟨Or.inl rfl, Nat.zero_le d, h⟩, ?_⟩
      rintro p ⟨hm, h1, h2⟩
      rcases hm with rfl | rfl | rfl | rfl | rfl | rfl <;> simp_all <;> omega
    rcases le_or_lt d 90 with h2 | h2
    · refine ⟨(31, 90), ⟨Or.inr (Or.inl rfl), h, h2⟩, ?_⟩
      rintro p ⟨hm, h1, h3⟩
      rcases hm with rfl | rfl | rfl | rfl | rfl | rfl <;> simp_all <;> omega
    rcases le_or_lt d 180 with h3 | h3
    · refine ⟨(91, 180), ⟨Or.inr (Or.inr (Or.inl rfl)), h2, h3⟩, ?_⟩
      rintro p ⟨hm, h1, h4⟩
      rcases hm with rfl | rfl | rfl | rfl | rfl | rfl <;> simp_all <;> omega
    rcases le_or_lt d 365 with h4 | h4
    · refine ⟨(181, 365), ⟨Or.inr (Or.inr (Or.inr (Or.inl rfl))), h3, h4⟩, ?_⟩
      rintro p ⟨hm, h1, h5⟩
      rcases hm with rfl | rfl | rfl | rfl | rfl | rfl <;> simp_all <;> omega
    rcases le_or_lt d 730 with h5 | h5
    · refine ⟨(366, 730), ⟨Or.inr (Or.inr (Or.inr (Or.inr (Or.inl rfl)))), h4, h5⟩, ?_⟩
      rintro p ⟨hm, h1, h6⟩
      rcases hm with rfl | rfl | rfl | rfl | rfl | rfl <;> simp_all <;> omega
    · refine ⟨(731, 9999), ⟨Or.inr (Or.inr (Or.inr (Or.inr (Or.inr rfl)))), h5, hd⟩, ?_⟩
      rintro p ⟨hm, h1, h6⟩
      rcases hm with rfl | rfl | rfl | rfl | rfl | rfl <;> simp_all <;> omega

/-- C5 witness: at 100 days the medium tenor is selected and the matching
tier is unique. -/
theorem c5_tier_selection_witness :
    select_treasury_ticker 100 = Tenor.medium ∧
    (∃! p : ℕ × ℕ, p ∈ treasury_tickers.map Prod.fst ∧ p.1 ≤ 100 ∧ 100 ≤ p.2) := by
  constructor
  · have h := (c5_tier_selection 100).1
    simpa using h
  · exact (c5_tier_selection 100).2 (by norm_num)

/-- C6: whenever the external retrieval yields an empty series or fails, the
rate never propagates the failure and equals the static fallback curve keyed
by the day thresholds. -/
theorem c6_fallback_curve (d : ℕ) (fetch : Tenor → FetchResult)
    (h : fetch (select_treasury_ticker d) = FetchResult.empty ∨
         fetch (select_treasury_ticker d) = FetchResult.failure) :
    get_risk_free_rate_maturity fetch d =
      (if d ≤ 30 then 45/1000 else if d ≤ 90 then 47/1000
       else if d ≤ 180 then 48/1000 else if d ≤ 365 then 49/1000
       else (50/1000 : ℚ)) := by
  unfold get_risk_free_rate_maturity
  rcases h with h | h <;> rw [h] <;> rfl

/-- C6 witness: a retrieval that always returns an empty series gives the
4.8% fallback at 100 days. -/
theorem c6_fallback_curve_witness :
    ((fun _ : Tenor => FetchResult.empty) (select_treasury_ticker 100) = FetchResult.empty ∨
      (fun _ : Tenor => FetchResult.empty) (select_treasury_ticker 100) = FetchResult.failure) ∧
    get_risk_free_rate_maturity (fun _ => FetchResult.empty) 100 = 48/1000 := by
  refine ⟨Or.inl rfl, ?_⟩
  rw [c6_fallback_curve 100 (fun _ => FetchResult.empty) (Or.inl rfl)]
  norm_num

/-! ### Gaussian facts -/

theorem stdGauss_pos (t : ℝ) : 0 < stdGauss t := Real.exp_pos _

theorem stdGauss_neg (t : ℝ) : stdGauss (-t) = stdGauss t := by
  unfold stdGauss
  rw [neg_sq]

theorem stdGauss_continuous : Continuous stdGauss := by
  unfold stdGauss
  exact Real.continuous_exp.comp (((continuous_pow 2).neg).div_const 2)

theorem stdGauss_integrable : Integrable stdGauss := by
  have h := integrable_exp_neg_mul_sq (show (0:ℝ) < 1/2 by norm_num)
  have e : ∀ t : ℝ, Real.exp (-(1/2) * t ^ 2) = stdGauss t := fun t => by
    unfold stdGauss
    congr 1
    ring
  simpa only [e] using h

theorem stdGauss_integral : (∫ t : ℝ, stdGauss t) = Real.sqrt (2 * Real.pi) := by
  have h := integral_gaussian (1/2)
  have e : ∀ t : ℝ, Real.exp (-(1/2) * t ^ 2) = stdGauss t := fun t => by
    unfold stdGauss
    congr 1
    ring
  simp only [e] at h
  rw [h, show (Real.pi / (1/2)) = 2 * Real.pi by ring]

theorem normCdf_add_neg (x : ℝ) : normCdf x + normCdf (-x) = 1 := by
  have h1 : (∫ t in Set.Iic (-x), stdGauss t) = ∫ t in Set.Ioi x, stdGauss t := by
    rw [← integral_comp_neg_Ioi x stdGauss]
    simp only [stdGauss_neg]
  have h2 : (∫ t in Set.Iic x, stdGauss t) + ∫ t in Set.Ioi x, stdGauss t
      = Real.sqrt (2 * Real.pi) := by
    rw [intervalIntegral.integral_Iic_add_Ioi stdGauss_integrable.integrableOn
      stdGauss_integrable.integrableOn, stdGauss_integral]
  unfold normCdf
  rw [h1, div_add_div_same, h2, div_self (Real.sqrt_ne_zero'.mpr (by positivity))]

theorem normCdf_nonneg (x : ℝ) : 0 ≤ normCdf x := by
  unfold normCdf
  apply div_nonneg _ (Real.sqrt_nonneg _)
  exact MeasureTheory.setIntegral_nonneg measurableSet_Iic fun t _ => (stdGauss_pos t).le

theorem normPdf_neg (x : ℝ) : normPdf (-x) = normPdf x := by
  unfold normPdf
  rw [stdGauss_neg]

theorem hasDerivAt_normCdf (x : ℝ) : HasDerivAt normCdf (normPdf x) x := by
  have key : ∀ u : ℝ, (∫ t in Set.Iic u, stdGauss t)
      = (∫ t in Set.Iic 0, stdGauss t) + ∫ t in (0:ℝ)..u, stdGauss t := by
    intro u
    rw [← intervalIntegral.integral_Iic_sub_Iic stdGauss_integrable.integrableOn
      stdGauss_integrable.integrableOn]
    ring
  have h1 : HasDerivAt (fun u => ∫ t in (0:ℝ)..u, stdGauss t) (stdGauss x) x :=
    intervalIntegral.integral_hasDerivAt_right
      stdGauss_integrable.intervalIntegrable
      stdGauss_continuous.stronglyMeasurable.stronglyMeasurableAtFilter
      stdGauss_continuous.continuousAt
  have h2 : HasDerivAt
      (fun u => ((∫ t in Set.Iic 0, stdGauss t) + ∫ t in (0:ℝ)..u, stdGauss t)
        / Real.sqrt (2 * Real.pi)) (stdGauss x / Real.sqrt (2 * Real.pi)) x :=
    (h1.const_add _).div_const _
  have he : normCdf = fun u =>
      ((∫ t in Set.Iic 0, stdGauss t) + ∫ t in (0:ℝ)..u, stdGauss t)
        / Real.sqrt (2 * Real.pi) := by
    funext u
    unfold normCdf
    rw [key u]
  rw [show normPdf x = stdGauss x / Real.sqrt (2 * Real.pi) from rfl, he]
  exact h2

/-- C1: at or past expiry (`T ≤ 0`) `black_scholes_with_dividends` returns
exactly the intrinsic value for both calls and puts, with no formula
evaluation. -/
theorem c1_expiry_intrinsic (S K T r : ℝ) (sigma : Option ℝ) (q : ℝ)
    (ty : OptionType) (hT : T ≤ 0) :
    black_scholes_with_dividends S K T r sigma q ty = intrinsic_value S K ty := by
  unfold black_scholes_with_dividends
  rw [if_pos hT]

/-- C1 witness: T = 0, spot 510, strike 500, call prices at exactly 10. -/
theorem c1_expiry_intrinsic_witness :
    (0:ℝ) ≤ 0 ∧
    black_scholes_with_dividends 510 500 0 (45/1000) (some (3/10)) 0
      OptionType.call = 10 := by
  refine ⟨le_rfl, ?_⟩
  rw [c1_expiry_intrinsic 510 500 0 (45/1000) (some (3/10)) 0 OptionType.call le_rfl]
  show max (510 - 500 : ℝ) 0 = 10
  norm_num

/-- C10: for `T > 0` the volatility argument is re-sanitized inside
`black_scholes_with_dividends` (both the META and the UNH variant), so the
price is unchanged under pre-sanitization, and the `d1` divisor
`sigma * sqrt T` built from the sanitized volatility is strictly positive. -/
theorem c10_total_in_volatility (S K T r q : ℝ) (sigma : Option ℝ)
    (ty : OptionType) (hT : 0 < T) :
    (black_scholes_with_dividends S K T r sigma q ty =
       black_scholes_with_dividends S K T r
         (some (validate_implied_volatility (35/100) (60/100) sigma)) q ty ∧
     0 < validate_implied_volatility (35/100) (60/100) sigma * Real.sqrt T) ∧
    (black_scholes_with_dividends_UNH S K T r sigma q ty =
       black_scholes_with_dividends_UNH S K T r
         (some (validate_implied_volatility (30/100) (50/100) sigma)) q ty ∧
     0 < validate_implied_volatility (30/100) (50/100) sigma * Real.sqrt T) := by
  have hMeta : 0 < validate_implied_volatility ((35:ℝ)/100) (60/100) sigma :=
    validate_iv_pos (by norm_num) (by norm_num) sigma
  have hUnh : 0 < validate_implied_volatility ((30:ℝ)/100) (50/100) sigma :=
    validate_iv_pos (by norm_num) (by norm_num) sigma
  have hsq : 0 < Real.sqrt T := Real.sqrt_pos.mpr hT
  refine ⟨⟨?_, mul_pos hMeta hsq⟩, ?_, mul_pos hUnh hsq⟩
  · unfold black_scholes_with_dividends
    rw [if_neg (not_le.mpr hT), if_neg (not_le.mpr hT),
      validate_iv_idem (by norm_num) (by norm_num) (by norm_num) (by norm_num) sigma]
  · unfold black_scholes_with_dividends_UNH
    rw [if_neg (not_le.mpr hT), if_neg (not_le.mpr hT),
      validate_iv_idem (by norm_num) (by norm_num) (by norm_num) (by norm_num) sigma]

/-- C10 witness: instantiated at T = 1 with a NaN-free negative volatility
input. -/
theorem c10_total_in_volatility_witness :
    (0:ℝ) < 1 ∧
    ((black_scholes_with_dividends 1 1 1 0 (some (-1)) 0 OptionType.call =
       black_scholes_with_dividends 1 1 1 0
         (some (validate_implied_volatility (35/100) (60/100) (some (-1)))) 0
         OptionType.call ∧
     0 < validate_implied_volatility ((35:ℝ)/100) (60/100) (some (-1)) * Real.sqrt 1) ∧
    (black_scholes_with_dividends_UNH 1 1 1 0 (some (-1)) 0 OptionType.call =
       black_scholes_with_dividends_UNH 1 1 1 0
         (some (validate_implied_volatility (30/100) (50/100) (some (-1)))) 0
         OptionType.call ∧
     0 < validate_implied_volatility ((30:ℝ)/100) (50/100) (some (-1)) * Real.sqrt 1)) :=
  ⟨one_pos, c10_total_in_volatility 1 1 1 0 0 (some (-1)) OptionType.call one_pos⟩

/-- C7: put-call parity for `black_scholes_with_dividends`, exactly over the
real-valued embedding, for positive spot and strike and non-negative time to
maturity. -/
theorem c7_put_call_parity (S K T r q : ℝ) (sigma : Option ℝ)
    (hS : 0 < S) (hK : 0 < K) (hT : 0 ≤ T) :
    black_scholes_with_dividends S K T r sigma q OptionType.call
      - black_scholes_with_dividends S K T r sigma q OptionType.put
      = S * Real.exp (-q * T) - K * Real.exp (-r * T) := by
  rcases eq_or_lt_of_le hT with hT0 | hT0
  · subst hT0
    unfold black_scholes_with_dividends
    rw [if_pos le_rfl, if_pos le_rfl]
    rw [show intrinsic_value S K OptionType.call = max (S - K) 0 from rfl,
        show intrinsic_value S K OptionType.put = max (K - S) 0 from rfl]
    simp only [mul_zero, Real.exp_zero, mul_one]
    rcases le_total S K with h | h
    · rw [max_eq_right (sub_nonpos.mpr h), max_eq_left (sub_nonneg.mpr h)]
      ring
    · rw [max_eq_left (sub_nonneg.mpr h), max_eq_right (sub_nonpos.mpr h)]
      ring
  · unfold black_scholes_with_dividends
    rw [if_neg (not_le.mpr hT0), if_neg (not_le.mpr hT0)]
    rw [show ∀ sv : ℝ, bs_formula S K T r sv q OptionType.call
          = S * Real.exp (-q * T) * normCdf (d1 S K T r sv q)
            - K * Real.exp (-r * T) * normCdf (d2 S K T r sv q) from fun sv => rfl,
        show ∀ sv : ℝ, bs_formula S K T r sv q OptionType.put
          = K * Real.exp (-r * T) * normCdf (-(d2 S K T r sv q))
            - S * Real.exp (-q * T) * normCdf (-(d1 S K T r sv q)) from fun sv => rfl]
    have h1 := normCdf_add_neg
      (d1 S K T r (validate_implied_volatility (35/100) (60/100) sigma) q)
    have h2 := normCdf_add_neg
      (d2 S K T r (validate_implied_volatility (35/100) (60/100) sigma) q)
    linear_combination (S * Real.exp (-q * T)) * h1 - (K * Real.exp (-r * T)) * h2

/-- C7 witness: at S = K = 1, T = 0 both sides of the parity are 0. -/
theorem c7_put_call_parity_witness :
    (0:ℝ) < 1 ∧ (0:ℝ) ≤ 0 ∧
    black_scholes_with_dividends 1 1 0 (45/1000) none 0 OptionType.call
      - black_scholes_with_dividends 1 1 0 (45/1000) none 0 OptionType.put
      = 1 * Real.exp (-0 * 0) - 1 * Real.exp (-(45/1000) * 0) :=
  ⟨one_pos, le_rfl, c7_put_call_parity 1 1 0 (45/1000) 0 none one_pos one_pos le_rfl⟩

/-- Key cancellation identity of the Black-Scholes delta computation:
`S·e^(-qT)·φ(d1) = K·e^(-rT)·φ(d2)`. -/
theorem bs_pdf_identity (S K T r sigma q : ℝ) (hS : 0 < S) (hK : 0 < K)
    (hT : 0 < T) (hsig : 0 < sigma) :
    S * Real.exp (-q * T) * normPdf (d1 S K T r sigma q)
      = K * Real.exp (-r * T) * normPdf (d2 S K T r sigma q) := by
  have hv : sigma * Real.sqrt T ≠ 0 := by positivity
  have hv2 : (sigma * Real.sqrt T) ^ 2 = sigma ^ 2 * T := by
    rw [mul_pow, Real.sq_sqrt hT.le]
  have hd1v : d1 S K T r sigma q * (sigma * Real.sqrt T)
      = Real.log S - Real.log K + (r - q + 0.5 * sigma ^ 2) * T := by
    unfold d1
    rw [div_mul_cancel₀ _ hv, Real.log_div hS.ne' hK.ne']
  have main : S * Real.exp (-q * T) * stdGauss (d1 S K T r sigma q)
      = K * Real.exp (-r * T) * stdGauss (d2 S K T r sigma q) := by
    unfold stdGauss d2
    set x := d1 S K T r sigma q with hx
    rw [← Real.exp_log hS, ← Real.exp_log hK, ← Real.exp_add, ← Real.exp_add,
        ← Real.exp_add, ← Real.exp_add, Real.exp_eq_exp]
    linear_combination (-1 : ℝ) * hd1v + hv2 / 2
  unfold normPdf
  rw [← mul_div_assoc, ← mul_div_assoc, main]

/-- Derivative of `d1` in the spot variable. -/
theorem hasDerivAt_d1_spot (K T r sigma q : ℝ) (hK : 0 < K) (hT : 0 < T)
    (hsig : 0 < sigma) (S : ℝ) (hS : 0 < S) :
    HasDerivAt (fun s => d1 s K T r sigma q)
      (1 / (S * (sigma * Real.sqrt T))) S := by
  have hS0 : S ≠ 0 := hS.ne'
  have hK0 : K ≠ 0 := hK.ne'
  have hv0 : sigma * Real.sqrt T ≠ 0 := by positivity
  have h0 : HasDerivAt (fun s : ℝ => s / K) (1 / K) S := (hasDerivAt_id S).div_const K
  have hSK : S / K ≠ 0 := by positivity
  have h2 := ((h0.log hSK).add_const ((r - q + 0.5 * sigma ^ 2) * T)).div_const
    (sigma * Real.sqrt T)
  have he : 1 / K / (S / K) / (sigma * Real.sqrt T)
      = 1 / (S * (sigma * Real.sqrt T)) := by
    field_simp
  rw [← he]
  exact h2

/-- Derivative of `d1` in the strike variable. -/
theorem hasDerivAt_d1_strike (S T r sigma q : ℝ) (hS : 0 < S) (hT : 0 < T)
    (hsig : 0 < sigma) (K : ℝ) (hK : 0 < K) :
    HasDerivAt (fun k => d1 S k T r sigma q)
      (-(1 / (K * (sigma * Real.sqrt T)))) K := by
  have hS0 : S ≠ 0 := hS.ne'
  have hK0 : K ≠ 0 := hK.ne'
  have hv0 : sigma * Real.sqrt T ≠ 0 := by positivity
  have h0 : HasDerivAt (fun k : ℝ => S / k) ((0 * K - S * 1) / K ^ 2) K :=
    (hasDerivAt_const K S).div (hasDerivAt_id K) hK0
  have hSK : S / K ≠ 0 := by positivity
  have h2 := ((h0.log hSK).add_const ((r - q + 0.5 * sigma ^ 2) * T)).div_const
    (sigma * Real.sqrt T)
  have he : (0 * K - S * 1) / K ^ 2 / (S / K) / (sigma * Real.sqrt T)
      = -(1 / (K * (sigma * Real.sqrt T))) := by
    field_simp
    ring
  rw [← he]
  exact h2

/-- Spot derivative of the call branch: the delta `e^(-qT)·Φ(d1)`. -/
theorem call_hasDerivAt_spot (K T r sigma q : ℝ) (hK : 0 < K) (hT : 0 < T)
    (hsig : 0 < sigma) (S : ℝ) (hS : 0 < S) :
    HasDerivAt (fun s => bs_formula s K T r sigma q OptionType.call)
      (Real.exp (-q * T) * normCdf (d1 S K T r sigma q)) S := by
  have hd1 := hasDerivAt_d1_spot K T r sigma q hK hT hsig S hS
  have hd2 : HasDerivAt (fun s => d2 s K T r sigma q)
      (1 / (S * (sigma * Real.sqrt T))) S := by
    have h := hd1.sub_const (sigma * Real.sqrt T)
    exact h
  have hphi1 : HasDerivAt (fun s => normCdf (d1 s K T r sigma q))
      (normPdf (d1 S K T r sigma q) * (1 / (S * (sigma * Real.sqrt T)))) S :=
    (hasDerivAt_normCdf _).comp S hd1
  have hphi2 : HasDerivAt (fun s => normCdf (d2 s K T r sigma q))
      (normPdf (d2 S K T r sigma q) * (1 / (S * (sigma * Real.sqrt T)))) S :=
    (hasDerivAt_normCdf _).comp S hd2
  have hu : HasDerivAt (fun s : ℝ => s * Real.exp (-q * T)) (Real.exp (-q * T)) S := by
    simpa using (hasDerivAt_id S).mul_const (Real.exp (-q * T))
  have hterm1 : HasDerivAt
      (fun s => s * Real.exp (-q * T) * normCdf (d1 s K T r sigma q))
      (Real.exp (-q * T) * normCdf (d1 S K T r sigma q)
        + S * Real.exp (-q * T)
          * (normPdf (d1 S K T r sigma q) * (1 / (S * (sigma * Real.sqrt T))))) S :=
    hu.mul hphi1
  have hterm2 : HasDerivAt
      (fun s => K * Real.exp (-r * T) * normCdf (d2 s K T r sigma q))
      (K * Real.exp (-r * T)
        * (normPdf (d2 S K T r sigma q) * (1 / (S * (sigma * Real.sqrt T))))) S :=
    hphi2.const_mul _
  have h := hterm1.sub hterm2
  have hkey := bs_pdf_identity S K T r sigma q hS hK hT hsig
  have he : Real.exp (-q * T) * normCdf (d1 S K T r sigma q)
      + S * Real.exp (-q * T)
        * (normPdf (d1 S K T r sigma q) * (1 / (S * (sigma * Real.sqrt T))))
      - K * Real.exp (-r * T)
        * (normPdf (d2 S K T r sigma q) * (1 / (S * (sigma * Real.sqrt T))))
      = Real.exp (-q * T) * normCdf (d1 S K T r sigma q) := by
    linear_combination (1 / (S * (sigma * Real.sqrt T))) * hkey
  rw [← he]
  exact h

/-- Strike derivative of the call branch: `-e^(-rT)·Φ(d2)`. -/
theorem call_hasDerivAt_strike (S T r sigma q : ℝ) (hS : 0 < S) (hT : 0 < T)
    (hsig : 0 < sigma) (K : ℝ) (hK : 0 < K) :
    HasDerivAt (fun k => bs_formula S k T r sigma q OptionType.call)
      (-(Real.exp (-r * T) * normCdf (d2 S K T r sigma q))) K := by
  have hd1 := hasDerivAt_d1_strike S T r sigma q hS hT hsig K hK
  have hd2 : HasDerivAt (fun k => d2 S k T r sigma q)
      (-(1 / (K * (sigma * Real.sqrt T)))) K := by
    have h := hd1.sub_const (sigma * Real.sqrt T)
    exact h
  have hphi1 : HasDerivAt (fun k => normCdf (d1 S k T r sigma q))
      (normPdf (d1 S K T r sigma q) * -(1 / (K * (sigma * Real.sqrt T)))) K :=
    (hasDerivAt_normCdf _).comp K hd1
  have hphi2 : HasDerivAt (fun k => normCdf (d2 S k T r sigma q))
      (normPdf (d2 S K T r sigma q) * -(1 / (K * (sigma * Real.sqrt T)))) K :=
    (hasDerivAt_normCdf _).comp K hd2
  have hterm1 : HasDerivAt
      (fun k => S * Real.exp (-q * T) * normCdf (d1 S k T r sigma q))
      (S * Real.exp (-q * T)
        * (normPdf (d1 S K T r sigma q) * -(1 / (K * (sigma * Real.sqrt T))))) K :=
    hphi1.const_mul _
  have hu : HasDerivAt (fun k : ℝ => k * Real.exp (-r * T)) (Real.exp (-r * T)) K := by
    simpa using (hasDerivAt_id K).mul_const (Real.exp (-r * T))
  have hterm2 : HasDerivAt
      (fun k => k * Real.exp (-r * T) * normCdf (d2 S k T r sigma q))
      (Real.exp (-r * T) * normCdf (d2 S K T r sigma q)
        + K * Real.exp (-r * T)
          * (normPdf (d2 S K T r sigma q) * -(1 / (K * (sigma * Real.sqrt T))))) K :=
    hu.mul hphi2
  have h := hterm1.sub hterm2
  have hkey := bs_pdf_identity S K T r sigma q hS hK hT hsig
  have he : S * Real.exp (-q * T)
        * (normPdf (d1 S K T r sigma q) * -(1 / (K * (sigma * Real.sqrt T))))
      - (Real.exp (-r * T) * normCdf (d2 S K T r sigma q)
        + K * Real.exp (-r * T)
          * (normPdf (d2 S K T r sigma q) * -(1 / (K * (sigma * Real.sqrt T)))))
      = -(Real.exp (-r * T) * normCdf (d2 S K T r sigma q)) := by
    linear_combination (-(1 / (K * (sigma * Real.sqrt T)))) * hkey
  rw [← he]
  exact h

/-- Spot derivative of the put branch: `-e^(-qT)·Φ(-d1)`. -/
theorem put_hasDerivAt_spot (K T r sigma q : ℝ) (hK : 0 < K) (hT : 0 < T)
    (hsig : 0 < sigma) (S : ℝ) (hS : 0 < S) :
    HasDerivAt (fun s => bs_formula s K T r sigma q OptionType.put)
      (-(Real.exp (-q * T) * normCdf (-(d1 S K T r sigma q)))) S := by
  have hd1 := hasDerivAt_d1_spot K T r sigma q hK hT hsig S hS
  have hd2 : HasDerivAt (fun s => d2 s K T r sigma q)
      (1 / (S * (sigma * Real.sqrt T))) S := by
    have h := hd1.sub_const (sigma * Real.sqrt T)
    exact h
  have hphi1 : HasDerivAt (fun s => normCdf (-(d1 s K T r sigma q)))
      (normPdf (-(d1 S K T r sigma q)) * -(1 / (S * (sigma * Real.sqrt T)))) S :=
    (hasDerivAt_normCdf _).comp S hd1.neg
  have hphi2 : HasDerivAt (fun s => normCdf (-(d2 s K T r sigma q)))
      (normPdf (-(d2 S K T r sigma q)) * -(1 / (S * (sigma * Real.sqrt T)))) S :=
    (hasDerivAt_normCdf _).comp S hd2.neg
  have hterm1 : HasDerivAt
      (fun s => K * Real.exp (-r * T) * normCdf (-(d2 s K T r sigma q)))
      (K * Real.exp (-r * T)
        * (normPdf (-(d2 S K T r sigma q)) * -(1 / (S * (sigma * Real.sqrt T))))) S :=
    hphi2.const_mul _
  have hu : HasDerivAt (fun s : ℝ => s * Real.exp (-q * T)) (Real.exp (-q * T)) S := by
    simpa using (hasDerivAt_id S).mul_const (Real.exp (-q * T))
  have hterm2 : HasDerivAt
      (fun s => s * Real.exp (-q * T) * normCdf (-(d1 s K T r sigma q)))
      (Real.exp (-q * T) * normCdf (-(d1 S K T r sigma q))
        + S * Real.exp (-q * T)
          * (normPdf (-(d1 S K T r sigma q)) * -(1 / (S * (sigma * Real.sqrt T))))) S :=
    hu.mul hphi1
  have h := hterm1.sub hterm2
  have hkey := bs_pdf_identity S K T r sigma q hS hK hT hsig
  have he : K * Real.exp (-r * T)
        * (normPdf (-(d2 S K T r sigma q)) * -(1 / (S * (sigma * Real.sqrt T))))
      - (Real.exp (-q * T) * normCdf (-(d1 S K T r sigma q))
        + S * Real.exp (-q * T)
          * (normPdf (-(d1 S K T r sigma q)) * -(1 / (S * (sigma * Real.sqrt T)))))
      = -(Real.exp (-q * T) * normCdf (-(d1 S K T r sigma q))) := by
    rw [normPdf_neg, normPdf_neg]
    linear_combination (1 / (S * (sigma * Real.sqrt T))) * hkey
  rw [← he]
  exact h

/-- Strike derivative of the put branch: `e^(-rT)·Φ(-d2)`. -/
theorem put_hasDerivAt_strike (S T r sigma q : ℝ) (hS : 0 < S) (hT : 0 < T)
    (hsig : 0 < sigma) (K : ℝ) (hK : 0 < K) :
    HasDerivAt (fun k => bs_formula S k T r sigma q OptionType.put)
      (Real.exp (-r * T) * normCdf (-(d2 S K T r sigma q))) K := by
  have hd1 := hasDerivAt_d1_strike S T r sigma q hS hT hsig K hK
  have hd2 : HasDerivAt (fun k => d2 S k T r sigma q)
      (-(1 / (K * (sigma * Real.sqrt T)))) K := by
    have h := hd1.sub_const (sigma * Real.sqrt T)
    exact h
  have hphi1 : HasDerivAt (fun k => normCdf (-(d1 S k T r sigma q)))
      (normPdf (-(d1 S K T r sigma q)) * - -(1 / (K * (sigma * Real.sqrt T)))) K :=
    (hasDerivAt_normCdf _).comp K hd1.neg
  have hphi2 : HasDerivAt (fun k => normCdf (-(d2 S k T r sigma q)))
      (normPdf (-(d2 S K T r sigma q)) * - -(1 / (K * (sigma * Real.sqrt T)))) K :=
    (hasDerivAt_normCdf _).comp K hd2.neg
  have hu : HasDerivAt (fun k : ℝ => k * Real.exp (-r * T)) (Real.exp (-r * T)) K := by
    simpa using (hasDerivAt_id K).mul_const (Real.exp (-r * T))
  have hterm1 : HasDerivAt
      (fun k => k * Real.exp (-r * T) * normCdf (-(d2 S k T r sigma q)))
      (Real.exp (-r * T) * normCdf (-(d2 S K T r sigma q))
        + K * Real.exp (-r * T)
          * (normPdf (-(d2 S K T r sigma q)) * - -(1 / (K * (sigma * Real.sqrt T))))) K :=
    hu.mul hphi2
  have hterm2 : HasDerivAt
      (fun k => S * Real.exp (-q * T) * normCdf (-(d1 S k T r sigma q)))
      (S * Real.exp (-q * T)
        * (normPdf (-(d1 S K T r sigma q)) * - -(1 / (K * (sigma * Real.sqrt T))))) K :=
    hphi1.const_mul _
  have h := hterm1.sub hterm2
  have hkey := bs_pdf_identity S K T r sigma q hS hK hT hsig
  have he : Real.exp (-r * T) * normCdf (-(d2 S K T r sigma q))
        + K * Real.exp (-r * T)
          * (normPdf (-(d2 S K T r sigma q)) * - -(1 / (K * (sigma * Real.sqrt T))))
      - S * Real.exp (-q * T)
          * (normPdf (-(d1 S K T r sigma q)) * - -(1 / (K * (sigma * Real.sqrt T))))
      = Real.exp (-r * T) * normCdf (-(d2 S K T r sigma q)) := by
    rw [normPdf_neg, normPdf_neg]
    linear_combination (-(1 / (K * (sigma * Real.sqrt T)))) * hkey
  rw [← he]
  exact h

theorem bs_formula_mono_spot_call (K T r sigma q : ℝ) (hK : 0 < K) (hT : 0 < T)
    (hsig : 0 < sigma) :
    MonotoneOn (fun s => bs_formula s K T r sigma q OptionType.call) (Set.Ioi 0) := by
  apply monotoneOn_of_deriv_nonneg (convex_Ioi 0)
  · intro s hs
    exact (call_hasDerivAt_spot K T r sigma q hK hT hsig s hs).continuousAt.continuousWithinAt
  · intro s hs
    rw [interior_Ioi] at hs
    exact (call_hasDerivAt_spot K T r sigma q hK hT hsig s
      hs).differentiableAt.differentiableWithinAt
  · intro s hs
    rw [interior_Ioi] at hs
    rw [(call_hasDerivAt_spot K T r sigma q hK hT hsig s hs).deriv]
    exact mul_nonneg (Real.exp_pos _).le (normCdf_nonneg _)

theorem bs_formula_anti_spot_put (K T r sigma q : ℝ) (hK : 0 < K) (hT : 0 < T)
    (hsig : 0 < sigma) :
    AntitoneOn (fun s => bs_formula s K T r sigma q OptionType.put) (Set.Ioi 0) := by
  apply antitoneOn_of_deriv_nonpos (convex_Ioi 0)
  · intro s hs
    exact (put_hasDerivAt_spot K T r sigma q hK hT hsig s hs).continuousAt.continuousWithinAt
  · intro s hs
    rw [interior_Ioi] at hs
    exact (put_hasDerivAt_spot K T r sigma q hK hT hsig s
      hs).differentiableAt.differentiableWithinAt
  · intro s hs
    rw [interior_Ioi] at hs
    rw [(put_hasDerivAt_spot K T r sigma q hK hT hsig s hs).deriv]
    exact neg_nonpos.mpr (mul_nonneg (Real.exp_pos _).le (normCdf_nonneg _))

theorem bs_formula_anti_strike_call (S T r sigma q : ℝ) (hS : 0 < S) (hT : 0 < T)
    (hsig : 0 < sigma) :
    AntitoneOn (fun k => bs_formula S k T r sigma q OptionType.call) (Set.Ioi 0) := by
  apply antitoneOn_of_deriv_nonpos (convex_Ioi 0)
  · intro k hk
    exact (call_hasDerivAt_strike S T r sigma q hS hT hsig k hk).continuousAt.continuousWithinAt
  · intro k hk
    rw [interior_Ioi] at hk
    exact (call_hasDerivAt_strike S T r sigma q hS hT hsig k
      hk).differentiableAt.differentiableWithinAt
  · intro k hk
    rw [interior_Ioi] at hk
    rw [(call_hasDerivAt_strike S T r sigma q hS hT hsig k hk).deriv]
    exact neg_nonpos.mpr (mul_nonneg (Real.exp_pos _).le (normCdf_nonneg _))

theorem bs_formula_mono_strike_put (S T r sigma q : ℝ) (hS : 0 < S) (hT : 0 < T)
    (hsig : 0 < sigma) :
    MonotoneOn (fun k => bs_formula S k T r sigma q OptionType.put) (Set.Ioi 0) := by
  apply monotoneOn_of_deriv_nonneg (convex_Ioi 0)
  · intro k hk
    exact (put_hasDerivAt_strike S T r sigma q hS hT hsig k hk).continuousAt.continuousWithinAt
  · intro k hk
    rw [interior_Ioi] at hk
    exact (put_hasDerivAt_strike S T r sigma q hS hT hsig k
      hk).differentiableAt.differentiableWithinAt
  · intro k hk
    rw [interior_Ioi] at hk
    rw [(put_hasDerivAt_strike S T r sigma q hS hT hsig k hk).deriv]
    exact mul_nonneg (Real.exp_pos _).le (normCdf_nonneg _)

/-- C8: with the other arguments fixed, `black_scholes_with_dividends` is
non-decreasing in the spot for calls and non-increasing for puts, and
non-increasing in the strike for calls and non-decreasing for puts, over
positive spot and strike. -/
theorem c8_monotonicity (T r q : ℝ) (sigma : Option ℝ) :
    (∀ K S1 S2, 0 < K → 0 < S1 → S1 ≤ S2 →
      black_scholes_with_dividends S1 K T r sigma q OptionType.call ≤
        black_scholes_with_dividends S2 K T r sigma q OptionType.call) ∧
    (∀ K S1 S2, 0 < K → 0 < S1 → S1 ≤ S2 →
      black_scholes_with_dividends S2 K T r sigma q OptionType.put ≤
        black_scholes_with_dividends S1 K T r sigma q OptionType.put) ∧
    (∀ S K1 K2, 0 < S → 0 < K1 → K1 ≤ K2 →
      black_scholes_with_dividends S K2 T r sigma q OptionType.call ≤
        black_scholes_with_dividends S K1 T r sigma q OptionType.call) ∧
    (∀ S K1 K2, 0 < S → 0 < K1 → K1 ≤ K2 →
      black_scholes_with_dividends S K1 T r sigma q OptionType.put ≤
        black_scholes_with_dividends S K2 T r sigma q OptionType.put) := by
  by_cases hT : T ≤ 0
  · refine ⟨?_, ?_, ?_, ?_⟩
    · intro K S1 S2 hK hS1 hle
      unfold black_scholes_with_dividends
      rw [if_pos hT, if_pos hT]
      show max (S1 - K) 0 ≤ max (S2 - K) 0
      exact max_le_max (sub_le_sub_right hle K) le_rfl
    · intro K S1 S2 hK hS1 hle
      unfold black_scholes_with_dividends
      rw [if_pos hT, if_pos hT]
      show max (K - S2) 0 ≤ max (K - S1) 0
      exact max_le_max (sub_le_sub_left hle K) le_rfl
    · intro S K1 K2 hS hK1 hle
      unfold black_scholes_with_dividends
      rw [if_pos hT, if_pos hT]
      show max (S - K2) 0 ≤ max (S - K1) 0
      exact max_le_max (sub_le_sub_left hle S) le_rfl
    · intro S K1 K2 hS hK1 hle
      unfold black_scholes_with_dividends
      rw [if_pos hT, if_pos hT]
      show max (K1 - S) 0 ≤ max (K2 - S) 0
      exact max_le_max (sub_le_sub_right hle S) le_rfl
  · push_neg at hT
    have hsig : 0 < validate_implied_volatility ((35:ℝ)/100) (60/100) sigma :=
      validate_iv_pos (by norm_num) (by norm_num) sigma
    refine ⟨?_, ?_, ?_, ?_⟩
    · intro K S1 S2 hK hS1 hle
      unfold black_scholes_with_dividends
      rw [if_neg (not_le.mpr hT), if_neg (not_le.mpr hT)]
      exact bs_formula_mono_spot_call K T r _ q hK hT hsig
        (Set.mem_Ioi.mpr hS1) (Set.mem_Ioi.mpr (lt_of_lt_of_le hS1 hle)) hle
    · intro K S1 S2 hK hS1 hle
      unfold black_scholes_with_dividends
      rw [if_neg (not_le.mpr hT), if_neg (not_le.mpr hT)]
      exact bs_formula_anti_spot_put K T r _ q hK hT hsig
        (Set.mem_Ioi.mpr hS1) (Set.mem_Ioi.mpr (lt_of_lt_of_le hS1 hle)) hle
    · intro S K1 K2 hS hK1 hle
      unfold black_scholes_with_dividends
      rw [if_neg (not_le.mpr hT), if_neg (not_le.mpr hT)]
      exact bs_formula_anti_strike_call S T r _ q hS hT hsig
        (Set.mem_Ioi.mpr hK1) (Set.mem_Ioi.mpr (lt_of_lt_of_le hK1 hle)) hle
    · intro S K1 K2 hS hK1 hle
      unfold black_scholes_with_dividends
      rw [if_neg (not_le.mpr hT), if_neg (not_le.mpr hT)]
      exact bs_formula_mono_strike_put S T r _ q hS hT hsig
        (Set.mem_Ioi.mpr hK1) (Set.mem_Ioi.mpr (lt_of_lt_of_le hK1 hle)) hle

/-- C8 witness: instantiated with positive spots and strikes 1 ≤ 2 at a
positive maturity. -/
theorem c8_monotonicity_witness :
    black_scholes_with_dividends 1 1 1 (45/1000) none 0 OptionType.call ≤
      black_scholes_with_dividends 2 1 1 (45/1000) none 0 OptionType.call ∧
    black_scholes_with_dividends 2 1 1 (45/1000) none 0 OptionType.put ≤
      black_scholes_with_dividends 1 1 1 (45/1000) none 0 OptionType.put ∧
    black_scholes_with_dividends 1 2 1 (45/1000) none 0 OptionType.call ≤
      black_scholes_with_dividends 1 1 1 (45/1000) none 0 OptionType.call ∧
    black_scholes_with_dividends 1 1 1 (45/1000) none 0 OptionType.put ≤
      black_scholes_with_dividends 1 2 1 (45/1000) none 0 OptionType.put :=
  ⟨(c8_monotonicity 1 (45/1000) 0 none).1 1 1 2 one_pos one_pos one_le_two,
   (c8_monotonicity 1 (45/1000) 0 none).2.1 1 1 2 one_pos one_pos one_le_two,
   (c8_monotonicity 1 (45/1000) 0 none).2.2.1 1 1 2 one_pos one_pos one_le_two,
   (c8_monotonicity 1 (45/1000) 0 none).2.2.2 1 1 2 one_pos one_pos one_le_two⟩
